import Mathlib

/-!
Verification development for the Frequent-Items-Analysis streaming counters.

The two core structures of the repository are embedded shallowly:

* `CsurosCounter` — the probabilistic floating counter of
  `src/csuros_counter.py` (Csűrös-style approximate counting);
* `LossyCount` — the bucketed lossy-counting structure of
  `src/lossy_count.py` (Manku–Motwani style).

Modelling conventions:

* Python dictionaries are association lists in insertion order; the
  `defaultdict(float)` used by `CsurosCounter` auto-vivifies a key on read,
  which is modelled explicitly by `dget` returning the (possibly extended)
  map alongside the value.
* Python floats are modelled as exact rationals `ℚ`.  The spec (§9) flags
  float rounding of `math.floor(math.log(v, b))` near powers of the base as
  a known fragility that faithful reimplementations reproduce; the claims
  settled here do not depend on that rounding, so the exact-real floor of
  the logarithm is used (`logFloor`).
* Code that can raise (`raise ValueError`, `math.log` domain errors,
  division by zero in `math.log(v, 1)`) is modelled with `Except String`.
* The wall-clock `processing_time` measured by `process_stream` is an
  external input and is passed as an explicit parameter `t`.
* `pd.notna` filtering of the input stream is the caller's concern (the
  spec assumes missing values are removed before feeding); streams are
  lists of opaque items with decidable equality.
-/

deriving instance DecidableEq for Except

/-- Lookup in an insertion-ordered association list (a Python dict read). -/
def alookup {α β : Type} [DecidableEq α] (k : α) : List (α × β) → Option β
  | [] => none
  | e :: l => if e.1 = k then some e.2 else alookup k l

/-- Overwrite the value stored at key `k` (a Python dict write to an
existing key); positions and keys are unchanged. -/
def aupd {α β : Type} [DecidableEq α] (k : α) (v : β) (l : List (α × β)) :
    List (α × β) :=
  l.map (fun e => if e.1 = k then (k, v) else e)

/-- A `defaultdict(float)` read: return the stored value, or extend the map
with a fresh `(k, 0)` entry (auto-vivification) and return `0`. -/
def dget {α : Type} [DecidableEq α] (k : α) (l : List (α × ℚ)) :
    ℚ × List (α × ℚ) :=
  match alookup k l with
  | some v => (v, l)
  | none => (0, l ++ [(k, 0)])

/-- A dict write `d[k] = v`: update in place if the key exists, append
otherwise.  (In `CsurosCounter.increment` the defaultdict read has already
vivified the key before the write, and the write immediately overwrites
that transient `0.0`, so the net effect is exactly update-or-append.) -/
def dwrite {α : Type} [DecidableEq α] (k : α) (v : ℚ) (l : List (α × ℚ)) :
    List (α × ℚ) :=
  match alookup k l with
  | some _ => aupd k v l
  | none => l ++ [(k, v)]

/-- Exact number of occurrences of `a` in the stream fed so far. -/
def true_frequency {α : Type} [DecidableEq α] (a : α) : List α → ℕ
  | [] => 0
  | b :: l => true_frequency a l + (if b = a then 1 else 0)

/-- Stable insertion step for a descending sort by a rational key
(Python's stable `sort(key=…, reverse=True)`): an element is placed after
all previously placed elements whose key is at least as large. -/
def insertDescQ {β : Type} (key : β → ℚ) (x : β) : List β → List β
  | [] => [x]
  | y :: l => if key y < key x then x :: y :: l else y :: insertDescQ key x l

/-- Stable descending sort by a rational key. -/
def sortDescQ {β : Type} (key : β → ℚ) (l : List β) : List β :=
  l.foldl (fun acc x => insertDescQ key x acc) []

/-- Stable insertion step for an ascending sort by a rational key. -/
def insertAscQ {β : Type} (key : β → ℚ) (x : β) : List β → List β
  | [] => [x]
  | y :: l => if key x < key y then x :: y :: l else y :: insertAscQ key x l

/-- Stable ascending sort by a rational key (Python's stable `sorted`). -/
def sortAscQ {β : Type} (key : β → ℚ) (l : List β) : List β :=
  l.foldl (fun acc x => insertAscQ key x acc) []

/-- Python `min(seq)` on rationals; the `0` default for the empty list is
never reached by the code (which guards against empty inputs). -/
def listMin : List ℚ → ℚ
  | [] => 0
  | x :: xs => xs.foldl min x

/-- Python `max(seq)` on rationals. -/
def listMax : List ℚ → ℚ
  | [] => 0
  | x :: xs => xs.foldl max x

/-! ## CsurosCounter (src/csuros_counter.py) -/

/-- State of `CsurosCounter`: the logarithmic base, the per-item
floating-point counters (`defaultdict(float)`), the exact tally of items
fed, and the last measured processing time. -/
structure CsurosCounter (α : Type) where
  base : ℚ
  counters : List (α × ℚ)
  total_items : ℕ
  processing_time : ℚ
deriving DecidableEq

/-- The state built by `CsurosCounter.__init__(base)`. -/
def CsurosCounter.initState {α : Type} (base : ℚ) : CsurosCounter α :=
  { base := base, counters := [], total_items := 0, processing_time := 0 }

/-- `CsurosCounter.__init__` — it performs no validation of `base` and
cannot raise, so it always succeeds. -/
def CsurosCounter.init {α : Type} (base : ℚ) :
    Except String (CsurosCounter α) :=
  Except.ok (CsurosCounter.initState base)

/-- `math.floor(math.log(v, b))` for a rational base `b > 1` and value
`v ≥ 1` (the only inputs the counter ever evaluates it on): the largest
`n` with `b ^ n ≤ v`.  The search bound is sound: writing `b = p/q` in
lowest terms with `b > 1` gives `b ≥ 1 + 1/q`, hence
`b ^ n ≥ 1 + n/q > v` once `n > q * (v.num)`. -/
def logFloor (b v : ℚ) : ℤ :=
  (Nat.findGreatest (fun n => b ^ n ≤ v) (b.den * v.num.toNat + 1) : ℤ)

/-- Python `base ** exponent` for a float base and an integer exponent:
an ordinary power for a non-negative exponent and the reciprocal power for
a negative one. -/
def qzpow (b : ℚ) : ℤ → ℚ
  | Int.ofNat n => b ^ n
  | Int.negSucc n => 1 / b ^ (n + 1)

/-- `CsurosCounter._increment` applied to one stored value, with the
uniform draw `u` supplied by `random.random()`.  Mirrors the Python
control flow: a value below 1 becomes 1 deterministically; otherwise the
exponent and probability are computed and the counter grows by
`base ^ exponent` exactly when `u < probability`.
`math.log(v, b)` raises `ValueError` when `b ≤ 0` and `ZeroDivisionError`
when `b = 1`; both are modelled as errors (the argument `v` is at least 1
in this branch, so its own domain check cannot fire). -/
def CsurosCounter.increment_value (b u v : ℚ) : Except String ℚ :=
  if v < 1 then
    Except.ok 1
  else if b ≤ 0 then
    Except.error "math domain error"
  else if b = 1 then
    Except.error "float division by zero"
  else
    let exponent := logFloor b v
    let probability := 1 / qzpow b exponent
    if u < probability then Except.ok (v + qzpow b exponent) else Except.ok v

/-- `CsurosCounter.increment(item)`: read the item's counter (vivifying a
missing key), run `_increment` on it with draw `u`, store the result and
bump `total_items`.  An exception from `_increment` propagates (the state
mutated before the raise is not observed by any caller in the repo). -/
def CsurosCounter.increment {α : Type} [DecidableEq α]
    (s : CsurosCounter α) (a : α) (u : ℚ) :
    Except String (CsurosCounter α) :=
  match CsurosCounter.increment_value s.base u (dget a s.counters).1 with
  | Except.error e => Except.error e
  | Except.ok v =>
      Except.ok { s with counters := dwrite a v s.counters,
                         total_items := s.total_items + 1 }

/-- A sequence of `increment` calls, each with its item and its uniform
draw; an exception aborts the run. -/
def CsurosCounter.run_increments {α : Type} [DecidableEq α]
    (s : CsurosCounter α) : List (α × ℚ) → Except String (CsurosCounter α)
  | [] => Except.ok s
  | op :: ops =>
      match s.increment op.1 op.2 with
      | Except.error e => Except.error e
      | Except.ok s2 => s2.run_increments ops

/-- `CsurosCounter._estimate`: the closed-form estimator. -/
def CsurosCounter.estimate_value (b v : ℚ) : ℚ :=
  if v ≤ 0 then 0 else b / (b - 1) * (v - 1) + 1

/-- `CsurosCounter.get_estimate(item)`: reads `self.counters[item]`
through the defaultdict (vivifying a missing key) and returns the
estimate together with the possibly mutated state. -/
def CsurosCounter.get_estimate {α : Type} [DecidableEq α]
    (s : CsurosCounter α) (a : α) : ℚ × CsurosCounter α :=
  (CsurosCounter.estimate_value s.base (dget a s.counters).1,
    { s with counters := (dget a s.counters).2 })

/-- `CsurosCounter.get_raw_counter(item)`: the stored value, read through
the defaultdict (vivifying a missing key). -/
def CsurosCounter.get_raw_counter {α : Type} [DecidableEq α]
    (s : CsurosCounter α) (a : α) : ℚ × CsurosCounter α :=
  ((dget a s.counters).1, { s with counters := (dget a s.counters).2 })

/-- `CsurosCounter.get_all_estimates`: iterates `counters.items()`; a pure
read. -/
def CsurosCounter.get_all_estimates {α : Type}
    (s : CsurosCounter α) : List (α × ℚ) :=
  s.counters.map (fun e => (e.1, CsurosCounter.estimate_value s.base e.2))

/-- `CsurosCounter.get_most_frequent(n)`: estimates sorted descending,
first `n`. -/
def CsurosCounter.get_most_frequent {α : Type}
    (s : CsurosCounter α) (n : ℕ) : List (α × ℚ) :=
  (sortDescQ (fun e => e.2) s.get_all_estimates).take n

/-- `CsurosCounter.get_least_frequent(n)`: estimates sorted ascending,
first `n`. -/
def CsurosCounter.get_least_frequent {α : Type}
    (s : CsurosCounter α) (n : ℕ) : List (α × ℚ) :=
  (sortAscQ (fun e => e.2) s.get_all_estimates).take n

/-- The dictionary returned by `CsurosCounter.get_statistics` when the
counter map is non-empty. -/
structure CsurosStats where
  total_items : ℕ
  unique_items : ℕ
  base : ℚ
  min_estimate : ℚ
  max_estimate : ℚ
  avg_estimate : ℚ
  processing_time : ℚ
deriving DecidableEq

/-- `CsurosCounter.get_statistics`: returns the empty dict (`none`) when
no counters exist, otherwise the populated statistics dict. -/
def CsurosCounter.get_statistics {α : Type}
    (s : CsurosCounter α) : Option CsurosStats :=
  match s.counters with
  | [] => none
  | _ =>
      let ests := s.get_all_estimates.map (fun e => e.2)
      some { total_items := s.total_items,
             unique_items := s.counters.length,
             base := s.base,
             min_estimate := listMin ests,
             max_estimate := listMax ests,
             avg_estimate := ests.sum / (ests.length : ℚ),
             processing_time := s.processing_time }

/-- `CsurosCounter.reset`: fresh counters, zero tally and time; the base
is kept. -/
def CsurosCounter.reset {α : Type} (s : CsurosCounter α) : CsurosCounter α :=
  { s with counters := [], total_items := 0, processing_time := 0 }

/-! ## LossyCount (src/lossy_count.py) -/

/-- `math.ceil(1.0 / epsilon)` as a natural number (it is positive for
every `0 < epsilon < 1` the constructor accepts). -/
def bucketWidth (epsilon : ℚ) : ℕ :=
  (Int.ceil (1 / epsilon)).toNat

/-- State of `LossyCount`: the error and support parameters, the derived
bucket width, the tracked entries `item ↦ (count, delta)` in insertion
order, the bucket bookkeeping, and the diagnostic tallies. -/
structure LossyCount (α : Type) where
  epsilon : ℚ
  support : ℚ
  bucket_width : ℕ
  entries : List (α × ℕ × ℕ)
  current_bucket : ℕ
  items_in_current_bucket : ℕ
  total_items : ℕ
  processing_time : ℚ
  max_entries : ℕ
  prune_count : ℕ
deriving DecidableEq

/-- The state built by a successful `LossyCount.__init__`. -/
def LossyCount.initState {α : Type} (epsilon support : ℚ) : LossyCount α :=
  { epsilon := epsilon, support := support,
    bucket_width := bucketWidth epsilon,
    entries := [], current_bucket := 1, items_in_current_bucket := 0,
    total_items := 0, processing_time := 0,
    max_entries := 0, prune_count := 0 }

/-- `LossyCount.__init__(epsilon, support)` with its three validation
checks, each raising `ValueError` exactly as in the source. -/
def LossyCount.init {α : Type} (epsilon support : ℚ) :
    Except String (LossyCount α) :=
  if epsilon ≤ 0 ∨ 1 ≤ epsilon then
    Except.error "epsilon deve estar entre 0 e 1 (exclusivo)"
  else if support ≤ 0 ∨ 1 ≤ support then
    Except.error "support deve estar entre 0 e 1 (exclusivo)"
  else if support ≤ epsilon then
    Except.error "epsilon deve ser menor que support"
  else
    Except.ok (LossyCount.initState epsilon support)

/-- `LossyCount._prune_entries`: drop every entry with
`count + delta ≤ current_bucket`; `prune_count` is bumped only when the
pass removed at least one entry (`if items_to_remove:`). -/
def LossyCount.prune_entries {α : Type} [DecidableEq α]
    (s : LossyCount α) : LossyCount α :=
  { s with
    entries := s.entries.filter
      (fun e => decide (s.current_bucket < e.2.1 + e.2.2)),
    prune_count :=
      if s.entries.any (fun e => decide (e.2.1 + e.2.2 ≤ s.current_bucket))
      then s.prune_count + 1 else s.prune_count }

/-- `LossyCount._process_item`: bump the tallies, update or insert the
item's entry (a new item gets `(count, delta) = (1, current_bucket - 1)`),
record the memory high-water mark, and on completing a bucket run the
prune pass and advance the bucket. -/
def LossyCount.process_item {α : Type} [DecidableEq α]
    (s : LossyCount α) (x : α) : LossyCount α :=
  let entries2 :=
    match alookup x s.entries with
    | some cd => aupd x (cd.1 + 1, cd.2) s.entries
    | none => s.entries ++ [(x, 1, s.current_bucket - 1)]
  let s2 : LossyCount α :=
    { s with total_items := s.total_items + 1,
             items_in_current_bucket := s.items_in_current_bucket + 1,
             entries := entries2,
             max_entries := max s.max_entries entries2.length }
  if s2.bucket_width ≤ s2.items_in_current_bucket then
    let s3 := s2.prune_entries
    { s3 with current_bucket := s3.current_bucket + 1,
              items_in_current_bucket := 0 }
  else s2

/-- `LossyCount.process_stream`: fold the items through `_process_item`;
the measured wall-clock time `t` is an external input recorded at the
end. -/
def LossyCount.process_stream {α : Type} [DecidableEq α]
    (s : LossyCount α) (xs : List α) (t : ℚ) : LossyCount α :=
  { xs.foldl LossyCount.process_item s with processing_time := t }

/-- `LossyCount.get_frequent_items(min_support=None)`: entries whose count
reaches `(min_support - epsilon) * total_items`, as
`(item, count, count / total_items)` tuples sorted by count descending. -/
def LossyCount.get_frequent_items {α : Type} [DecidableEq α]
    (s : LossyCount α) (min_support : Option ℚ) : List (α × ℕ × ℚ) :=
  let ms := min_support.getD s.support
  let threshold : ℚ := (ms - s.epsilon) * (s.total_items : ℚ)
  let frequent := s.entries.filterMap (fun e =>
    if threshold ≤ (e.2.1 : ℚ) then
      some (e.1, e.2.1,
        if 0 < s.total_items then (e.2.1 : ℚ) / (s.total_items : ℚ) else 0)
    else none)
  sortDescQ (fun e => (e.2.1 : ℚ)) frequent

/-- `LossyCount.get_top_n(n)`: entries sorted by count descending, first
`n`, as `(item, count)` pairs. -/
def LossyCount.get_top_n {α : Type} [DecidableEq α]
    (s : LossyCount α) (n : ℕ) : List (α × ℕ) :=
  ((sortDescQ (fun e => (e.2.1 : ℚ)) s.entries).take n).map
    (fun e => (e.1, e.2.1))

/-- `LossyCount.get_count(item)`: the stored count, `0` when absent (a
plain dict membership test — no vivification). -/
def LossyCount.get_count {α : Type} [DecidableEq α]
    (s : LossyCount α) (a : α) : ℕ :=
  match alookup a s.entries with
  | some cd => cd.1
  | none => 0

/-- `LossyCount.get_all_counts`. -/
def LossyCount.get_all_counts {α : Type}
    (s : LossyCount α) : List (α × ℕ) :=
  s.entries.map (fun e => (e.1, e.2.1))

/-- The dictionary returned by `LossyCount.get_statistics`. -/
structure LossyStats where
  total_items : ℕ
  unique_items_stored : ℕ
  epsilon : ℚ
  support : ℚ
  bucket_width : ℕ
  current_bucket : ℕ
  max_entries : ℕ
  prune_count : ℕ
  processing_time : ℚ
  memory_efficiency : ℚ
deriving DecidableEq

/-- `LossyCount.get_statistics`: a pure read of the state. -/
def LossyCount.get_statistics {α : Type}
    (s : LossyCount α) : LossyStats :=
  { total_items := s.total_items,
    unique_items_stored := s.entries.length,
    epsilon := s.epsilon,
    support := s.support,
    bucket_width := s.bucket_width,
    current_bucket := s.current_bucket,
    max_entries := s.max_entries,
    prune_count := s.prune_count,
    processing_time := s.processing_time,
    memory_efficiency :=
      if 0 < s.bucket_width then
        (s.entries.length : ℚ) / (s.bucket_width : ℚ)
      else 0 }

/-- `LossyCount.reset`: every mutable field back to its constructed value;
the parameters (and the derived bucket width) are kept. -/
def LossyCount.reset {α : Type} (s : LossyCount α) : LossyCount α :=
  { s with entries := [], current_bucket := 1, items_in_current_bucket := 0,
           total_items := 0, processing_time := 0, max_entries := 0,
           prune_count := 0 }

/-- Spec-side tally for the corrected reading of `prune_count`: replaying
the stream, count the bucket-boundary prune passes in which at least one
entry met the removal condition `count + delta ≤ current_bucket`.  The
per-step condition mirrors `_process_item` exactly: the boundary test uses
the incremented `items_in_current_bucket`, and removal is judged on the
entries as updated by the current item. -/
def LossyCount.removing_prune_passes {α : Type} [DecidableEq α]
    (s : LossyCount α) : List α → ℕ
  | [] => 0
  | x :: xs =>
      let entries2 :=
        match alookup x s.entries with
        | some cd => aupd x (cd.1 + 1, cd.2) s.entries
        | none => s.entries ++ [(x, 1, s.current_bucket - 1)]
      (if s.bucket_width ≤ s.items_in_current_bucket + 1 ∧
          entries2.any (fun e => decide (e.2.1 + e.2.2 ≤ s.current_bucket))
       then 1 else 0) + (s.process_item x).removing_prune_passes xs

/-- The running invariant of `LossyCount`, relative to the stream `xs`
processed so far: dict keys are unique; every tracked entry brackets the
item's true frequency (`count ≤ freq ≤ count + delta`) and satisfies
`delta ≤ current_bucket - 1`; every untracked item has frequency at most
`current_bucket - 1`; and the bucket bookkeeping ties `total_items`,
`current_bucket` and `items_in_current_bucket` together. -/
def LossyInv {α : Type} [DecidableEq α] (xs : List α) (s : LossyCount α) :
    Prop :=
  (s.entries.map (fun e => e.1)).Nodup
  ∧ (∀ a c d, (a, c, d) ∈ s.entries →
      c ≤ true_frequency a xs ∧ true_frequency a xs ≤ c + d ∧
      d + 1 ≤ s.current_bucket)
  ∧ (∀ a : α, a ∉ s.entries.map (fun e => e.1) →
      true_frequency a xs + 1 ≤ s.current_bucket)
  ∧ s.total_items = xs.length
  ∧ 1 ≤ s.current_bucket
  ∧ s.total_items + s.bucket_width =
      s.current_bucket * s.bucket_width + s.items_in_current_bucket
  ∧ s.items_in_current_bucket < s.bucket_width


/-! ## Association-list lemmas -/

theorem alookup_mem {α β : Type} [DecidableEq α] {k : α} {v : β} :
    ∀ {l : List (α × β)}, alookup k l = some v → (k, v) ∈ l := by
  intro l
  induction l with
  | nil => intro h; simp [alookup] at h
  | cons e l ih =>
      intro h
      rw [alookup] at h
      split_ifs at h with he
      · have he2 : e.2 = v := Option.some_inj.mp h
        have hkv : (k, v) = e := by rw [← he, ← he2]
        rw [hkv]
        exact List.mem_cons_self e l
      · exact List.mem_cons_of_mem e (ih h)

theorem alookup_eq_none {α β : Type} [DecidableEq α] {k : α} :
    ∀ {l : List (α × β)}, alookup k l = none ↔ k ∉ l.map (fun e => e.1) := by
  intro l
  induction l with
  | nil => simp [alookup]
  | cons e l ih =>
      rw [alookup]
      by_cases he : e.1 = k
      · simp [he]
      · simp only [if_neg he, ih, List.map_cons, List.mem_cons]
        constructor
        · intro h hk
          rcases hk with hk | hk
          · exact he hk.symm
          · exact h hk
        · intro h hk
          exact h (Or.inr hk)

theorem mem_aupd {α β : Type} [DecidableEq α] {k : α} {v : β}
    {e : α × β} {l : List (α × β)} (h : e ∈ aupd k v l) :
    (e ∈ l ∧ e.1 ≠ k) ∨ e = (k, v) := by
  rw [aupd] at h
  obtain ⟨e0, he0, heq⟩ := List.mem_map.mp h
  by_cases h0 : e0.1 = k
  · rw [if_pos h0] at heq
    right
    exact heq.symm
  · rw [if_neg h0] at heq
    left
    rw [← heq]
    exact ⟨he0, h0⟩

theorem keys_aupd {α β : Type} [DecidableEq α] (k : α) (v : β)
    (l : List (α × β)) :
    (aupd k v l).map (fun e => e.1) = l.map (fun e => e.1) := by
  rw [aupd, List.map_map]
  apply List.map_congr_left
  intro e _
  by_cases h0 : e.1 = k
  · simp [h0]
  · simp [h0]

theorem alookup_aupd_self {α β : Type} [DecidableEq α] {k : α} {w : β}
    (v : β) : ∀ {l : List (α × β)},
    alookup k l = some w → alookup k (aupd k v l) = some v := by
  intro l
  induction l with
  | nil => intro h; simp [alookup] at h
  | cons e l ih =>
      intro h
      rw [alookup] at h
      rw [aupd, List.map_cons]
      by_cases he : e.1 = k
      · rw [if_pos he]
        simp [alookup]
      · rw [if_neg he]
        rw [if_neg he] at h
        rw [alookup, if_neg he]
        exact ih h

theorem alookup_aupd_ne {α β : Type} [DecidableEq α] {a k : α} (v : β)
    (hne : a ≠ k) : ∀ (l : List (α × β)),
    alookup a (aupd k v l) = alookup a l := by
  intro l
  induction l with
  | nil => simp [aupd, alookup]
  | cons e l ih =>
      rw [aupd, List.map_cons]
      by_cases he : e.1 = k
      · rw [if_pos he]
        rw [alookup, alookup, if_neg (fun h => hne h.symm), if_neg]
        · exact ih
        · rw [he]; exact fun h => hne h.symm
      · rw [if_neg he]
        rw [alookup, alookup]
        by_cases hea : e.1 = a
        · rw [if_pos hea, if_pos hea]
        · rw [if_neg hea, if_neg hea]
          exact ih

theorem alookup_append_some {α β : Type} [DecidableEq α] {a : α} {v : β}
    {l l2 : List (α × β)} (h : alookup a l = some v) :
    alookup a (l ++ l2) = some v := by
  induction l with
  | nil => simp [alookup] at h
  | cons e l ih =>
      rw [alookup] at h
      rw [List.cons_append, alookup]
      by_cases he : e.1 = a
      · rw [if_pos he] at h
        rw [if_pos he]
        exact h
      · rw [if_neg he] at h
        rw [if_neg he]
        exact ih h

theorem alookup_append_none {α β : Type} [DecidableEq α] {a : α}
    {l : List (α × β)} (l2 : List (α × β)) (h : alookup a l = none) :
    alookup a (l ++ l2) = alookup a l2 := by
  induction l with
  | nil => simp
  | cons e l ih =>
      rw [alookup] at h
      rw [List.cons_append, alookup]
      by_cases he : e.1 = a
      · rw [if_pos he] at h
        exact absurd h (by simp)
      · rw [if_neg he] at h
        rw [if_neg he]
        exact ih h

theorem alookup_of_mem_nodup {α β : Type} [DecidableEq α] {a : α} {v : β} :
    ∀ {l : List (α × β)}, (l.map (fun e => e.1)).Nodup → (a, v) ∈ l →
    alookup a l = some v := by
  intro l
  induction l with
  | nil => intro _ hm; simp at hm
  | cons e l ih =>
      intro hnd hm
      rw [List.map_cons, List.nodup_cons] at hnd
      rw [alookup]
      rcases List.mem_cons.mp hm with hm | hm
      · rw [← hm]
        simp
      · have ha : a ∈ l.map (fun e => e.1) :=
          List.mem_map.mpr ⟨(a, v), hm, rfl⟩
        have he : e.1 ≠ a := fun h => hnd.1 (h ▸ ha)
        rw [if_neg he]
        exact ih hnd.2 hm

theorem exists_of_mem_keys {α β : Type} [DecidableEq α] {a : α}
    {l : List (α × β)} (h : a ∈ l.map (fun e => e.1)) :
    ∃ v, (a, v) ∈ l := by
  obtain ⟨e, he, heq⟩ := List.mem_map.mp h
  refine ⟨e.2, ?_⟩
  have : (a, e.2) = e := by rw [← heq]
  rw [this]
  exact he

theorem alookup_dwrite_self {α : Type} [DecidableEq α] (k : α) (v : ℚ)
    (l : List (α × ℚ)) : alookup k (dwrite k v l) = some v := by
  rw [dwrite]
  cases hx : alookup k l with
  | some w => exact alookup_aupd_self v hx
  | none =>
      rw [alookup_append_none _ hx]
      simp [alookup]

theorem alookup_dwrite_ne {α : Type} [DecidableEq α] {a k : α} (v : ℚ)
    (l : List (α × ℚ)) (hne : a ≠ k) :
    alookup a (dwrite k v l) = alookup a l := by
  rw [dwrite]
  cases hx : alookup k l with
  | some w => exact alookup_aupd_ne v hne l
  | none =>
      cases ha : alookup a l with
      | some w => exact alookup_append_some ha
      | none =>
          rw [alookup_append_none _ ha]
          simp [alookup, Ne.symm hne]

theorem true_frequency_append {α : Type} [DecidableEq α] (a x : α)
    (xs : List α) :
    true_frequency a (xs ++ [x]) =
      true_frequency a xs + (if x = a then 1 else 0) := by
  induction xs with
  | nil => simp [true_frequency]
  | cons b l ih =>
      rw [List.cons_append, true_frequency, true_frequency, ih]
      ring

theorem true_frequency_le_length {α : Type} [DecidableEq α] (a : α)
    (xs : List α) : true_frequency a xs ≤ xs.length := by
  induction xs with
  | nil => simp [true_frequency]
  | cons b l ih =>
      rw [true_frequency, List.length_cons]
      by_cases hb : b = a
      · rw [if_pos hb]; omega
      · rw [if_neg hb]; omega

theorem mem_insertDescQ {β : Type} (key : β → ℚ) (x a : β) :
    ∀ l : List β, a ∈ insertDescQ key x l ↔ a = x ∨ a ∈ l := by
  intro l
  induction l with
  | nil => simp [insertDescQ]
  | cons y l ih =>
      rw [insertDescQ]
      by_cases h : key y < key x
      · rw [if_pos h]
        simp [List.mem_cons]
      · rw [if_neg h]
        simp only [List.mem_cons, ih]
        tauto

theorem mem_sortDescQ {β : Type} (key : β → ℚ) (a : β) (l : List β) :
    a ∈ sortDescQ key l ↔ a ∈ l := by
  rw [sortDescQ]
  have aux : ∀ (l acc : List β),
      a ∈ l.foldl (fun acc x => insertDescQ key x acc) acc ↔
        a ∈ acc ∨ a ∈ l := by
    intro l
    induction l with
    | nil => intro acc; simp
    | cons y l ih =>
        intro acc
        rw [List.foldl_cons, ih, mem_insertDescQ]
        simp only [List.mem_cons]
        tauto
  rw [aux]
  simp

/-! ## CsurosCounter lemmas -/

theorem qzpow_pos {b : ℚ} (hb : 0 < b) : ∀ e : ℤ, 0 < qzpow b e := by
  intro e
  cases e with
  | ofNat n =>
      rw [qzpow]
      exact pow_pos hb n
  | negSucc n =>
      rw [qzpow]
      exact div_pos one_pos (pow_pos hb (n + 1))

theorem increment_value_ok {b : ℚ} (hb : 1 < b) (u v : ℚ) :
    ∃ w, CsurosCounter.increment_value b u v = Except.ok w ∧ v ≤ w := by
  rw [CsurosCounter.increment_value]
  by_cases hv : v < 1
  · exact ⟨1, by rw [if_pos hv], le_of_lt hv⟩
  · rw [if_neg hv, if_neg (by linarith), if_neg (by linarith)]
    by_cases hu : u < 1 / qzpow b (logFloor b v)
    · refine ⟨v + qzpow b (logFloor b v), by rw [if_pos hu], ?_⟩
      have hpow : (0 : ℚ) < qzpow b (logFloor b v) :=
        qzpow_pos (by linarith) (logFloor b v)
      linarith
    · exact ⟨v, by rw [if_neg hu], le_refl v⟩

theorem increment_ok {α : Type} [DecidableEq α] {s : CsurosCounter α}
    (hb : 1 < s.base) (a : α) (u : ℚ) :
    ∃ s2, s.increment a u = Except.ok s2 ∧ s2.base = s.base ∧
      ∀ x : α, (s.get_raw_counter x).1 ≤ (s2.get_raw_counter x).1 := by
  obtain ⟨w, hw, hvw⟩ := increment_value_ok hb u (dget a s.counters).1
  refine ⟨{ s with counters := dwrite a w s.counters, total_items := s.total_items + 1 }, ?_, rfl, ?_⟩
  · rw [CsurosCounter.increment, hw]
  · intro x
    rw [CsurosCounter.get_raw_counter, CsurosCounter.get_raw_counter]
    by_cases hx : x = a
    · obtain rfl := hx
      rw [dget, dget]
      cases hl : alookup x s.counters with
      | some v0 =>
          rw [alookup_dwrite_self x w]
          rw [dget, hl] at hvw
          exact hvw
      | none =>
          rw [alookup_dwrite_self x w]
          rw [dget, hl] at hvw
          exact hvw
    · rw [dget, dget, alookup_dwrite_ne w s.counters hx]
      cases hl : alookup x s.counters with
      | some v0 => exact le_refl _
      | none => exact le_refl _

theorem run_increments_ok {α : Type} [DecidableEq α] :
    ∀ (ops : List (α × ℚ)) (s : CsurosCounter α), 1 < s.base →
    ∃ s2, s.run_increments ops = Except.ok s2 ∧ s2.base = s.base ∧
      ∀ x : α, (s.get_raw_counter x).1 ≤ (s2.get_raw_counter x).1 := by
  intro ops
  induction ops with
  | nil =>
      intro s hb
      exact ⟨s, rfl, rfl, fun x => le_refl _⟩
  | cons op ops ih =>
      intro s hb
      obtain ⟨s1, h1, hbase1, hmono1⟩ := increment_ok hb op.1 op.2
      obtain ⟨s2, h2, hbase2, hmono2⟩ := ih s1 (hbase1 ▸ hb)
      refine ⟨s2, ?_, by rw [hbase2, hbase1], fun x => le_trans (hmono1 x) (hmono2 x)⟩
      rw [CsurosCounter.run_increments, h1]
      exact h2

theorem run_increments_sound {α : Type} [DecidableEq α] :
    ∀ (ops : List (α × ℚ)) (s s2 : CsurosCounter α), 1 < s.base →
    s.run_increments ops = Except.ok s2 →
    s2.base = s.base ∧
      ∀ x : α, (s.get_raw_counter x).1 ≤ (s2.get_raw_counter x).1 := by
  intro ops s s2 hb h
  obtain ⟨s3, h3, hbase, hmono⟩ := run_increments_ok ops s hb
  rw [h] at h3
  obtain rfl : s2 = s3 := Except.ok.inj h3
  exact ⟨hbase, hmono⟩

/-! ## LossyCount lemmas -/

theorem bucketWidth_pos {e : ℚ} (he : 0 < e) : 0 < bucketWidth e := by
  have h1 : (0 : ℚ) < 1 / e := by positivity
  have h2 : 0 < Int.ceil (1 / e) := Int.ceil_pos.mpr h1
  rw [bucketWidth]
  omega

theorem bucketWidth_ge {e : ℚ} (he : 0 < e) : 1 / e ≤ (bucketWidth e : ℚ) := by
  have h1 : (0 : ℚ) < 1 / e := by positivity
  have h2 : 0 < Int.ceil (1 / e) := Int.ceil_pos.mpr h1
  have h3 : ((Int.ceil (1 / e)).toNat : ℤ) = Int.ceil (1 / e) :=
    Int.toNat_of_nonneg (le_of_lt h2)
  rw [bucketWidth]
  have h4 : (((Int.ceil (1 / e)).toNat : ℕ) : ℚ) = ((Int.ceil (1 / e) : ℤ) : ℚ) := by
    exact_mod_cast h3
  rw [h4]
  exact Int.le_ceil _

theorem of_init_ok {α : Type} {e supp : ℚ} {s0 : LossyCount α}
    (h : LossyCount.init e supp = Except.ok s0) :
    0 < e ∧ e < 1 ∧ 0 < supp ∧ supp < 1 ∧ e < supp ∧
      s0 = LossyCount.initState e supp := by
  rw [LossyCount.init] at h
  split_ifs at h with h1 h2 h3
  push_neg at h1 h2 h3
  obtain rfl : LossyCount.initState e supp = s0 := Except.ok.inj h
  exact ⟨h1.1, h1.2, h2.1, h2.2, h3, rfl⟩

theorem process_item_params {α : Type} [DecidableEq α]
    (s : LossyCount α) (x : α) :
    (s.process_item x).epsilon = s.epsilon ∧
      (s.process_item x).support = s.support ∧
      (s.process_item x).bucket_width = s.bucket_width := by
  rw [LossyCount.process_item]
  cases hx : alookup x s.entries with
  | some cd =>
      dsimp only [LossyCount.prune_entries]
      split
      · exact ⟨rfl, rfl, rfl⟩
      · exact ⟨rfl, rfl, rfl⟩
  | none =>
      dsimp only [LossyCount.prune_entries]
      split
      · exact ⟨rfl, rfl, rfl⟩
      · exact ⟨rfl, rfl, rfl⟩

theorem foldl_params {α : Type} [DecidableEq α] :
    ∀ (xs : List α) (s : LossyCount α),
    (xs.foldl LossyCount.process_item s).epsilon = s.epsilon ∧
      (xs.foldl LossyCount.process_item s).support = s.support ∧
      (xs.foldl LossyCount.process_item s).bucket_width = s.bucket_width := by
  intro xs
  induction xs with
  | nil => intro s; exact ⟨rfl, rfl, rfl⟩
  | cons x xs ih =>
      intro s
      rw [List.foldl_cons]
      obtain ⟨i1, i2, i3⟩ := ih (s.process_item x)
      obtain ⟨p1, p2, p3⟩ := process_item_params s x
      exact ⟨i1.trans p1, i2.trans p2, i3.trans p3⟩

theorem lossyInv_initState {α : Type} [DecidableEq α] {e : ℚ}
    (he : 0 < e) (supp : ℚ) :
    LossyInv ([] : List α) (LossyCount.initState e supp) := by
  have hw := bucketWidth_pos he
  refine ⟨by simp [LossyCount.initState], ?_, ?_, rfl, le_refl 1, ?_, ?_⟩
  · intro a c d h
    simp [LossyCount.initState] at h
  · intro a _
    simp [true_frequency, LossyCount.initState]
  · simp [LossyCount.initState]
  · simpa [LossyCount.initState] using hw

theorem prune_clauses {α : Type} [DecidableEq α] {ys : List α} {cb : ℕ}
    {l : List (α × ℕ × ℕ)}
    (hnd2 : (l.map (fun e => e.1)).Nodup)
    (hmem2 : ∀ a c d, (a, c, d) ∈ l →
      c ≤ true_frequency a ys ∧ true_frequency a ys ≤ c + d ∧ d + 1 ≤ cb)
    (habs2 : ∀ a : α, a ∉ l.map (fun e => e.1) →
      true_frequency a ys + 1 ≤ cb) :
    (((l.filter (fun e => decide (cb < e.2.1 + e.2.2))).map
        (fun e => e.1)).Nodup)
    ∧ (∀ a c d, (a, c, d) ∈ l.filter (fun e => decide (cb < e.2.1 + e.2.2)) →
        c ≤ true_frequency a ys ∧ true_frequency a ys ≤ c + d ∧
          d + 1 ≤ cb + 1)
    ∧ (∀ a : α, a ∉ (l.filter (fun e => decide (cb < e.2.1 + e.2.2))).map
        (fun e => e.1) → true_frequency a ys + 1 ≤ cb + 1) := by
  refine ⟨?_, ?_, ?_⟩
  · exact List.Nodup.sublist (List.Sublist.map _ (List.filter_sublist l)) hnd2
  · intro a c d hm
    obtain ⟨hm1, hm2⟩ := List.mem_filter.mp hm
    obtain ⟨g1, g2, g3⟩ := hmem2 a c d hm1
    exact ⟨g1, g2, by omega⟩
  · intro a ha
    by_cases hk : a ∈ l.map (fun e => e.1)
    · obtain ⟨⟨c, d⟩, hm0⟩ := exists_of_mem_keys hk
      have hnot : ¬ (cb < c + d) := by
        intro hlt2
        refine ha (List.mem_map.mpr ⟨(a, c, d), List.mem_filter.mpr ⟨hm0, ?_⟩, rfl⟩)
        simpa using hlt2
      obtain ⟨g1, g2, g3⟩ := hmem2 a c d hm0
      omega
    · have := habs2 a hk
      omega

theorem lossyInv_step {α : Type} [DecidableEq α] {xs : List α}
    {s : LossyCount α} (h : LossyInv xs s) (x : α) :
    LossyInv (xs ++ [x]) (s.process_item x) := by
  obtain ⟨hnd, hmem, habs, htot, hcb, hbk, hlt⟩ := h
  obtain ⟨M, hM⟩ : ∃ M, s.current_bucket * s.bucket_width = M := ⟨_, rfl⟩
  rw [hM] at hbk
  -- clauses for the entries as updated by this item, before any pruning
  have entup : ∃ entries2 : List (α × ℕ × ℕ),
      (match alookup x s.entries with
        | some cd => aupd x (cd.1 + 1, cd.2) s.entries
        | none => s.entries ++ [(x, 1, s.current_bucket - 1)]) = entries2
      ∧ (entries2.map (fun e => e.1)).Nodup
      ∧ (∀ a c d, (a, c, d) ∈ entries2 →
          c ≤ true_frequency a (xs ++ [x]) ∧
            true_frequency a (xs ++ [x]) ≤ c + d ∧
            d + 1 ≤ s.current_bucket)
      ∧ (∀ a : α, a ∉ entries2.map (fun e => e.1) →
          true_frequency a (xs ++ [x]) + 1 ≤ s.current_bucket) := by
    cases hx : alookup x s.entries with
    | some cd =>
        obtain ⟨c0, d0⟩ := cd
        have hx2 : (x, c0, d0) ∈ s.entries := alookup_mem hx
        obtain ⟨b1, b2, b3⟩ := hmem x c0 d0 hx2
        refine ⟨aupd x (c0 + 1, d0) s.entries, rfl, ?_, ?_, ?_⟩
        · rw [keys_aupd]
          exact hnd
        · intro a c d hm
          rcases mem_aupd hm with ⟨hm0, hne⟩ | heq
          · obtain ⟨g1, g2, g3⟩ := hmem a c d hm0
            rw [true_frequency_append, if_neg (fun hh => hne hh.symm)]
            exact ⟨by omega, by omega, g3⟩
          · have ha : a = x := congrArg (fun p => p.1) heq
            have hc : c = c0 + 1 := congrArg (fun p => p.2.1) heq
            have hd : d = d0 := congrArg (fun p => p.2.2) heq
            obtain rfl := ha
            obtain rfl := hc
            obtain rfl := hd
            rw [true_frequency_append, if_pos rfl]
            exact ⟨by omega, by omega, b3⟩
        · intro a ha
          rw [keys_aupd] at ha
          have hax : a ≠ x := by
            intro haa
            obtain rfl := haa
            exact ha (List.mem_map.mpr ⟨(a, c0, d0), hx2, rfl⟩)
          rw [true_frequency_append, if_neg (fun hh => hax hh.symm)]
          have := habs a ha
          omega
    | none =>
        have hxk : x ∉ s.entries.map (fun e => e.1) := alookup_eq_none.mp hx
        refine ⟨s.entries ++ [(x, 1, s.current_bucket - 1)], rfl, ?_, ?_, ?_⟩
        · rw [List.map_append]
          refine List.Nodup.append hnd (by simp) ?_
          intro a ha hb
          simp at hb
          obtain rfl := hb
          exact hxk ha
        · intro a c d hm
          rcases List.mem_append.mp hm with hm0 | hm0
          · have hax : a ≠ x := by
              intro haa
              obtain rfl := haa
              exact hxk (List.mem_map.mpr ⟨(a, c, d), hm0, rfl⟩)
            obtain ⟨g1, g2, g3⟩ := hmem a c d hm0
            rw [true_frequency_append, if_neg (fun hh => hax hh.symm)]
            exact ⟨by omega, by omega, g3⟩
          · simp at hm0
            obtain ⟨rfl, rfl, rfl⟩ := hm0
            have hfx := habs _ hxk
            rw [true_frequency_append, if_pos rfl]
            exact ⟨by omega, by omega, by omega⟩
        · intro a ha
          rw [List.map_append] at ha
          have ha1 : a ∉ s.entries.map (fun e => e.1) := fun hh =>
            ha (List.mem_append.mpr (Or.inl hh))
          have hax : a ≠ x := by
            intro haa
            obtain rfl := haa
            exact ha (List.mem_append.mpr (Or.inr (by simp)))
          rw [true_frequency_append, if_neg (fun hh => hax hh.symm)]
          have := habs a ha1
          omega
  obtain ⟨entries2, hent, hnd2, hmem2, habs2⟩ := entup
  rw [LossyCount.process_item, hent]
  by_cases hcond : s.bucket_width ≤ s.items_in_current_bucket + 1
  · -- bucket boundary: prune, advance the bucket
    rw [if_pos hcond]
    obtain ⟨pn, pm, pa⟩ := prune_clauses hnd2 hmem2 habs2
    dsimp only [LossyCount.prune_entries]
    refine ⟨pn, pm, pa, ?_, ?_, ?_, ?_⟩
    · show s.total_items + 1 = (xs ++ [x]).length
      rw [List.length_append, htot]
      rfl
    · show 1 ≤ s.current_bucket + 1
      omega
    · show s.total_items + 1 + s.bucket_width =
        (s.current_bucket + 1) * s.bucket_width + 0
      rw [Nat.succ_mul, hM]
      omega
    · show 0 < s.bucket_width
      omega
  · rw [if_neg hcond]
    refine ⟨hnd2, hmem2, habs2, ?_, hcb, ?_, ?_⟩
    · show s.total_items + 1 = (xs ++ [x]).length
      rw [List.length_append, htot]
      rfl
    · show s.total_items + 1 + s.bucket_width =
        s.current_bucket * s.bucket_width + (s.items_in_current_bucket + 1)
      rw [hM]
      omega
    · show s.items_in_current_bucket + 1 < s.bucket_width
      omega

theorem lossyInv_foldl {α : Type} [DecidableEq α] :
    ∀ (xs pre : List α) (s : LossyCount α), LossyInv pre s →
    LossyInv (pre ++ xs) (xs.foldl LossyCount.process_item s) := by
  intro xs
  induction xs with
  | nil =>
      intro pre s h
      simpa using h
  | cons x xs ih =>
      intro pre s h
      rw [List.foldl_cons]
      have h3 := ih (pre ++ [x]) (s.process_item x) (lossyInv_step h x)
      rw [List.append_assoc] at h3
      simpa using h3

theorem lossyInv_run {α : Type} [DecidableEq α] {e supp : ℚ}
    {s0 : LossyCount α} (h : LossyCount.init e supp = Except.ok s0)
    (xs : List α) (t : ℚ) : LossyInv xs (s0.process_stream xs t) := by
  obtain ⟨he, _, _, _, _, rfl⟩ := of_init_ok h
  have h1 := lossyInv_foldl xs [] _ (lossyInv_initState he supp)
  rw [List.nil_append] at h1
  exact h1

theorem process_item_entries {α : Type} [DecidableEq α]
    (s : LossyCount α) (x : α) :
    (s.process_item x).entries =
      (if s.bucket_width ≤ s.items_in_current_bucket + 1 then
        ((match alookup x s.entries with
          | some cd => aupd x (cd.1 + 1, cd.2) s.entries
          | none => s.entries ++ [(x, 1, s.current_bucket - 1)] :
            List (α × ℕ × ℕ))).filter
            (fun e2 => decide (s.current_bucket < e2.2.1 + e2.2.2))
      else (match alookup x s.entries with
        | some cd => aupd x (cd.1 + 1, cd.2) s.entries
        | none => s.entries ++ [(x, 1, s.current_bucket - 1)])) := by
  rw [LossyCount.process_item]
  cases alookup x s.entries with
  | some cd =>
      dsimp only [LossyCount.prune_entries]
      by_cases hc : s.bucket_width ≤ s.items_in_current_bucket + 1
      · rw [if_pos hc, if_pos hc]
      · rw [if_neg hc, if_neg hc]
  | none =>
      dsimp only [LossyCount.prune_entries]
      by_cases hc : s.bucket_width ≤ s.items_in_current_bucket + 1
      · rw [if_pos hc, if_pos hc]
      · rw [if_neg hc, if_neg hc]

theorem alookup_filter_nodup {α β : Type} [DecidableEq α] {a : α} {v : β}
    {l : List (α × β)} {p : α × β → Bool}
    (hnd : (l.map (fun e => e.1)).Nodup)
    (h : alookup a (l.filter p) = some v) : alookup a l = some v :=
  alookup_of_mem_nodup hnd (List.mem_filter.mp (alookup_mem h)).1

theorem delta_unchanged_step {α : Type} [DecidableEq α] {s : LossyCount α}
    (hnd : (s.entries.map (fun e => e.1)).Nodup) {a x : α} {c d c2 d2 : ℕ}
    (h1 : alookup a s.entries = some (c, d))
    (h2 : alookup a (s.process_item x).entries = some (c2, d2)) :
    d2 = d := by
  rw [process_item_entries] at h2
  cases hx : alookup x s.entries with
  | some cd =>
      obtain ⟨c0, d0⟩ := cd
      simp only [hx] at h2
      have hnd2 : ((aupd x (c0 + 1, d0) s.entries).map (fun e => e.1)).Nodup := by
        rw [keys_aupd]
        exact hnd
      have hent2 : alookup a (aupd x (c0 + 1, d0) s.entries) = some (c2, d2) := by
        by_cases hc : s.bucket_width ≤ s.items_in_current_bucket + 1
        · rw [if_pos hc] at h2
          exact alookup_filter_nodup hnd2 h2
        · rw [if_neg hc] at h2
          exact h2
      by_cases hax : a = x
      · obtain rfl := hax
        rw [alookup_aupd_self (c0 + 1, d0) hx] at hent2
        have he2 : (c0 + 1, d0) = (c2, d2) := Option.some_inj.mp hent2
        have he1 : (c0, d0) = (c, d) := by
          rw [hx] at h1
          exact Option.some_inj.mp h1
        have hd0 : d0 = d2 := congrArg (fun q => q.2) he2
        have hdd : d0 = d := congrArg (fun q => q.2) he1
        omega
      · rw [alookup_aupd_ne (c0 + 1, d0) hax s.entries, h1] at hent2
        have he2 : (c, d) = (c2, d2) := Option.some_inj.mp hent2
        have hd0 : d = d2 := congrArg (fun q => q.2) he2
        omega
  | none =>
      simp only [hx] at h2
      have hxk : x ∉ s.entries.map (fun e => e.1) := alookup_eq_none.mp hx
      have hnd2 : ((s.entries ++ [(x, (1 : ℕ), s.current_bucket - 1)]).map
          (fun e => e.1)).Nodup := by
        rw [List.map_append]
        refine List.Nodup.append hnd (by simp) ?_
        intro a2 ha2 hb2
        simp at hb2
        obtain rfl := hb2
        exact hxk ha2
      have hent2 : alookup a
          (s.entries ++ [(x, (1 : ℕ), s.current_bucket - 1)]) =
          some (c2, d2) := by
        by_cases hc : s.bucket_width ≤ s.items_in_current_bucket + 1
        · rw [if_pos hc] at h2
          exact alookup_filter_nodup hnd2 h2
        · rw [if_neg hc] at h2
          exact h2
      rw [alookup_append_some h1] at hent2
      have he2 : (c, d) = (c2, d2) := Option.some_inj.mp hent2
      have hd0 : d = d2 := congrArg (fun q => q.2) he2
      omega

theorem process_item_prune_count {α : Type} [DecidableEq α]
    (s : LossyCount α) (x : α) :
    (s.process_item x).prune_count = s.prune_count +
      (if s.bucket_width ≤ s.items_in_current_bucket + 1 ∧
          ((match alookup x s.entries with
            | some cd => aupd x (cd.1 + 1, cd.2) s.entries
            | none => s.entries ++ [(x, 1, s.current_bucket - 1)] :
              List (α × ℕ × ℕ))).any
            (fun e2 => decide (e2.2.1 + e2.2.2 ≤ s.current_bucket)) = true
       then 1 else 0) := by
  rw [LossyCount.process_item]
  cases hx : alookup x s.entries with
  | some cd =>
      dsimp only [LossyCount.prune_entries]
      by_cases hc : s.bucket_width ≤ s.items_in_current_bucket + 1
      · rw [if_pos hc]
        by_cases hany : (aupd x (cd.1 + 1, cd.2) s.entries).any
            (fun e2 => decide (e2.2.1 + e2.2.2 ≤ s.current_bucket)) = true
        · rw [if_pos hany, if_pos ⟨hc, hany⟩]
        · rw [if_neg hany, if_neg (fun hh => hany hh.2)]
          rfl
      · rw [if_neg hc, if_neg (fun hh => hc hh.1)]
        rfl
  | none =>
      dsimp only [LossyCount.prune_entries]
      by_cases hc : s.bucket_width ≤ s.items_in_current_bucket + 1
      · rw [if_pos hc]
        by_cases hany : (s.entries ++ [(x, (1 : ℕ), s.current_bucket - 1)]).any
            (fun e2 => decide (e2.2.1 + e2.2.2 ≤ s.current_bucket)) = true
        · rw [if_pos hany, if_pos ⟨hc, hany⟩]
        · rw [if_neg hany, if_neg (fun hh => hany hh.2)]
          rfl
      · rw [if_neg hc, if_neg (fun hh => hc hh.1)]
        rfl

theorem foldl_prune_count {α : Type} [DecidableEq α] :
    ∀ (xs : List α) (s : LossyCount α),
    (xs.foldl LossyCount.process_item s).prune_count =
      s.prune_count + s.removing_prune_passes xs := by
  intro xs
  induction xs with
  | nil =>
      intro s
      rw [List.foldl_nil, LossyCount.removing_prune_passes]
      rfl
  | cons x xs ih =>
      intro s
      rw [List.foldl_cons, ih (s.process_item x), process_item_prune_count,
        LossyCount.removing_prune_passes]
      omega

theorem reset_run {α : Type} [DecidableEq α] {e supp : ℚ}
    {s0 : LossyCount α} (h : LossyCount.init e supp = Except.ok s0)
    (xs : List α) (t : ℚ) : (s0.process_stream xs t).reset = s0 := by
  obtain ⟨_, _, _, _, _, rfl⟩ := of_init_ok h
  obtain ⟨p1, p2, p3⟩ := foldl_params xs (LossyCount.initState e supp)
  rw [LossyCount.reset, LossyCount.process_stream]
  dsimp only []
  rw [p1, p2, p3]
  rfl

theorem csuros_reset_eq {α : Type} (s : CsurosCounter α) :
    s.reset = CsurosCounter.initState s.base := rfl

/-! ## Claim theorems -/

/-- C1 counterexample: on a freshly constructed counter, the query
`get_estimate(0)` does NOT leave the state unchanged — reading the
untouched key through the `defaultdict` creates a `(0, 0.0)` entry in the
counters map, so the claim as stated is false. -/
theorem csuros_query_mutates_cex :
    ((CsurosCounter.initState 2 : CsurosCounter ℕ).get_estimate 0).2 ≠
      CsurosCounter.initState 2 ∧
    ((CsurosCounter.initState 2 : CsurosCounter ℕ).get_estimate 0).2.counters
      = [(0, 0)] ∧
    ((CsurosCounter.initState 2 : CsurosCounter ℕ).get_raw_counter 0).2.counters
      = [(0, 0)] := by
  refine ⟨?_, rfl, rfl⟩
  intro h
  have h2 := congrArg (fun s => s.counters.length) h
  simp [CsurosCounter.get_estimate, CsurosCounter.initState, dget, alookup] at h2

/-- C1 (amended): `get_estimate` and `get_raw_counter` leave the state
unchanged when the queried item is already tracked, but on an untouched
key they extend the counters map with a `(item, 0.0)` entry; the remaining
queries (`get_all_estimates`, `get_most_frequent`, `get_least_frequent`,
`get_statistics`) are pure reads of the state by construction. -/
theorem csuros_query_frame {α : Type} [DecidableEq α]
    (s : CsurosCounter α) (a : α) :
    (alookup a s.counters ≠ none →
      (s.get_estimate a).2 = s ∧ (s.get_raw_counter a).2 = s)
    ∧ (alookup a s.counters = none →
      (s.get_estimate a).2.counters = s.counters ++ [(a, 0)] ∧
        (s.get_raw_counter a).2.counters = s.counters ++ [(a, 0)]) := by
  constructor
  · intro h
    cases hl : alookup a s.counters with
    | none => exact absurd hl h
    | some v =>
        constructor
        · show ({ s with counters := (dget a s.counters).2 }) = s
          rw [dget, hl]
        · show ({ s with counters := (dget a s.counters).2 }) = s
          rw [dget, hl]
  · intro h
    constructor
    · show ({ s with counters := (dget a s.counters).2 }).counters =
        s.counters ++ [(a, 0)]
      rw [dget, h]
    · show ({ s with counters := (dget a s.counters).2 }).counters =
        s.counters ++ [(a, 0)]
      rw [dget, h]

/-- Witness for C1's amended theorem at a concrete tracked state. -/
theorem csuros_query_frame_witness :
    (({ base := 2, counters := [((0 : ℕ), (1 : ℚ))], total_items := 1,
        processing_time := 0 } : CsurosCounter ℕ).get_estimate 0).2 =
      { base := 2, counters := [(0, 1)], total_items := 1,
        processing_time := 0 } :=
  ((csuros_query_frame
    { base := 2, counters := [((0 : ℕ), (1 : ℚ))], total_items := 1,
      processing_time := 0 } 0).1 (by decide)).1

/-- C2 counterexample: the constructor performs no validation, so
`CsurosCounter(base=1/2)` — a base at most 1 — succeeds instead of failing
with a configuration error. -/
theorem csuros_init_no_validation_cex :
    CsurosCounter.init ((1 : ℚ) / 2) =
      Except.ok (CsurosCounter.initState ((1 : ℚ) / 2) : CsurosCounter ℕ) ∧
    ((1 : ℚ) / 2 ≤ 1) := by
  constructor
  · rfl
  · norm_num

/-- C2 (amended): the constructor accepts every base without raising, and
for every base greater than 1 a sequence of increment calls can never
raise. -/
theorem csuros_never_raises (α : Type) [DecidableEq α] :
    (∀ b : ℚ, CsurosCounter.init b =
      Except.ok (CsurosCounter.initState b : CsurosCounter α))
    ∧ ∀ (s : CsurosCounter α) (ops : List (α × ℚ)), 1 < s.base →
        ∃ s2, s.run_increments ops = Except.ok s2 := by
  constructor
  · intro b
    rfl
  · intro s ops hb
    obtain ⟨s2, h2, _, _⟩ := run_increments_ok ops s hb
    exact ⟨s2, h2⟩

/-- Witness for C2's amended theorem. -/
theorem csuros_never_raises_witness :
    ∃ s2, (CsurosCounter.initState 2 : CsurosCounter ℕ).run_increments
      [(0, 0), (0, 0), (1, 0)] = Except.ok s2 :=
  (csuros_never_raises ℕ).2 (CsurosCounter.initState 2)
    [(0, 0), (0, 0), (1, 0)] (by decide)

/-- C3 counterexample: with base 2 and every draw 0, the stored raw value
after the third increment of the key is 4, not 3: the update rule adds
`base ^ floor(log_base v)`, so the trajectory is geometric, not the
arithmetic sequence the claim states. -/
theorem csuros_scenario_cex :
    ((CsurosCounter.initState 2 : CsurosCounter ℕ).run_increments
        (List.replicate 3 (0, 0))).map (fun s => alookup 0 s.counters) =
      Except.ok (some 4) ∧
    ¬ ((CsurosCounter.initState 2 : CsurosCounter ℕ).run_increments
        (List.replicate 3 (0, 0))).map (fun s => alookup 0 s.counters) =
      Except.ok (some 3) := by
  constructor
  · with_unfolding_all decide
  · with_unfolding_all decide

/-- C3 (amended): with base 2 and the draw stubbed to 0, four successive
increments of one key drive the stored raw counter through
1, 2, 4, 8 (deterministic doubling after the first touch). -/
theorem csuros_scenario_raw_sequence :
    ((CsurosCounter.initState 2 : CsurosCounter ℕ).run_increments
        (List.replicate 1 (0, 0))).map (fun s => alookup 0 s.counters) =
      Except.ok (some 1) ∧
    ((CsurosCounter.initState 2 : CsurosCounter ℕ).run_increments
        (List.replicate 2 (0, 0))).map (fun s => alookup 0 s.counters) =
      Except.ok (some 2) ∧
    ((CsurosCounter.initState 2 : CsurosCounter ℕ).run_increments
        (List.replicate 3 (0, 0))).map (fun s => alookup 0 s.counters) =
      Except.ok (some 4) ∧
    ((CsurosCounter.initState 2 : CsurosCounter ℕ).run_increments
        (List.replicate 4 (0, 0))).map (fun s => alookup 0 s.counters) =
      Except.ok (some 8) := by
  refine ⟨?_, ?_, ?_, ?_⟩
  · with_unfolding_all decide
  · with_unfolding_all decide
  · with_unfolding_all decide
  · with_unfolding_all decide

/-- C5 counterexample: on an empty `CsurosCounter`, `get_statistics`
returns the empty dict (`none`), not a populated result with zero
counts. -/
theorem csuros_empty_statistics_cex :
    ¬ ∃ st : CsurosStats,
      (CsurosCounter.initState 2 : CsurosCounter ℕ).get_statistics =
        some st ∧ st.total_items = 0 := by
  rintro ⟨st, hst, _⟩
  have hnone : (CsurosCounter.initState 2 : CsurosCounter ℕ).get_statistics
      = none := rfl
  rw [hnone] at hst
  cases hst

/-- C5 (amended): queries on empty counters are total and well defined:
the estimate of any unseen item on a fresh probabilistic counter is 0.0;
a fresh `CsurosCounter` returns the empty dict from `get_statistics`
(rather than raising on `min` of an empty sequence); a fresh `LossyCount`
returns a statistics record with zero counts, and its `get_count` is 0
everywhere. -/
theorem empty_counter_queries (α : Type) [DecidableEq α] :
    (∀ (b : ℚ) (a : α),
      ((CsurosCounter.initState b : CsurosCounter α).get_estimate a).1 = 0)
    ∧ (∀ b : ℚ,
      (CsurosCounter.initState b : CsurosCounter α).get_statistics = none)
    ∧ ∀ (e supp : ℚ) (s0 : LossyCount α),
        LossyCount.init e supp = Except.ok s0 →
        s0.get_statistics.total_items = 0 ∧
          s0.get_statistics.unique_items_stored = 0 ∧
          ∀ a : α, s0.get_count a = 0 := by
  refine ⟨?_, ?_, ?_⟩
  · intro b a
    rfl
  · intro b
    rfl
  · intro e supp s0 h
    obtain ⟨_, _, _, _, _, rfl⟩ := of_init_ok h
    exact ⟨rfl, rfl, fun a => rfl⟩

/-- Witness for C5's amended theorem on a concrete valid `LossyCount`. -/
theorem empty_counter_queries_witness :
    (LossyCount.initState ((1 : ℚ) / 4) ((1 : ℚ) / 2) :
        LossyCount ℕ).get_statistics.total_items = 0 :=
  ((empty_counter_queries ℕ).2.2 ((1 : ℚ) / 4) ((1 : ℚ) / 2)
    (LossyCount.initState ((1 : ℚ) / 4) ((1 : ℚ) / 2))
    (by with_unfolding_all decide)).1

/-- C4 counterexample: with epsilon 1/2 (bucket width 2) and the stream
`[0, 0]`, one bucket completes, so one prune pass runs (the bucket
counter advances from 1 to 2), yet the reported `prune_count` is 0 —
the code bumps it only when the pass removed at least one entry, so it
does not equal the number of prune passes performed
(`total_items / bucket_width` = one per completed bucket). -/
theorem lossy_prune_count_cex :
    (LossyCount.get_statistics ((LossyCount.initState (1/2) (3/4) :
        LossyCount ℕ).process_stream [0, 0] 0)).prune_count = 0 ∧
    (LossyCount.get_statistics ((LossyCount.initState (1/2) (3/4) :
        LossyCount ℕ).process_stream [0, 0] 0)).current_bucket = 2 ∧
    (LossyCount.get_statistics ((LossyCount.initState (1/2) (3/4) :
        LossyCount ℕ).process_stream [0, 0] 0)).total_items = 2 ∧
    (LossyCount.get_statistics ((LossyCount.initState (1/2) (3/4) :
        LossyCount ℕ).process_stream [0, 0] 0)).bucket_width = 2 ∧
    ¬ (LossyCount.get_statistics ((LossyCount.initState (1/2) (3/4) :
        LossyCount ℕ).process_stream [0, 0] 0)).prune_count =
      (LossyCount.get_statistics ((LossyCount.initState (1/2) (3/4) :
        LossyCount ℕ).process_stream [0, 0] 0)).total_items /
      (LossyCount.get_statistics ((LossyCount.initState (1/2) (3/4) :
        LossyCount ℕ).process_stream [0, 0] 0)).bucket_width := by
  refine ⟨?_, ?_, ?_, ?_, ?_⟩
  · with_unfolding_all decide
  · with_unfolding_all decide
  · with_unfolding_all decide
  · with_unfolding_all decide
  · with_unfolding_all decide

/-- C4 (amended): the `prune_count` reported by `get_statistics` equals
the number of prune passes in which at least one entry was removed
(`removing_prune_passes` replays the stream and counts exactly those
boundary passes where some entry met the removal condition). -/
theorem lossy_prune_count_removing (α : Type) [DecidableEq α]
    (e supp : ℚ) (s0 : LossyCount α)
    (h : LossyCount.init e supp = Except.ok s0) (xs : List α) (t : ℚ) :
    (LossyCount.get_statistics (s0.process_stream xs t)).prune_count =
      s0.removing_prune_passes xs := by
  obtain ⟨_, _, _, _, _, rfl⟩ := of_init_ok h
  show (xs.foldl LossyCount.process_item
    (LossyCount.initState e supp)).prune_count = _
  rw [foldl_prune_count]
  exact Nat.zero_add _

/-- Witness for C4's amended theorem on the concrete pruning stream. -/
theorem lossy_prune_count_removing_witness :
    (LossyCount.get_statistics ((LossyCount.initState (1/2) (3/4) :
        LossyCount ℕ).process_stream [0, 0] 0)).prune_count =
      (LossyCount.initState (1/2) (3/4) :
        LossyCount ℕ).removing_prune_passes [0, 0] :=
  lossy_prune_count_removing ℕ (1/2) (3/4)
    (LossyCount.initState (1/2) (3/4)) (by with_unfolding_all decide) [0, 0] 0

/-- C10: the bucket bookkeeping invariant
`total_items = (current_bucket - 1) * bucket_width + items_in_current_bucket`
with `items_in_current_bucket < bucket_width` holds after construction,
after processing any stream, and after reset (`0 ≤ items_in_current_bucket`
holds by the type). -/
theorem lossy_bookkeeping (α : Type) [DecidableEq α] (e supp : ℚ)
    (s0 : LossyCount α) (h : LossyCount.init e supp = Except.ok s0)
    (xs : List α) (t : ℚ) :
    (s0.total_items =
        (s0.current_bucket - 1) * s0.bucket_width +
          s0.items_in_current_bucket ∧
      s0.items_in_current_bucket < s0.bucket_width)
    ∧ ((s0.process_stream xs t).total_items =
        ((s0.process_stream xs t).current_bucket - 1) *
            (s0.process_stream xs t).bucket_width +
          (s0.process_stream xs t).items_in_current_bucket ∧
      (s0.process_stream xs t).items_in_current_bucket <
        (s0.process_stream xs t).bucket_width)
    ∧ ((s0.process_stream xs t).reset.total_items =
        ((s0.process_stream xs t).reset.current_bucket - 1) *
            (s0.process_stream xs t).reset.bucket_width +
          (s0.process_stream xs t).reset.items_in_current_bucket ∧
      (s0.process_stream xs t).reset.items_in_current_bucket <
        (s0.process_stream xs t).reset.bucket_width) := by
  have hInv := lossyInv_run h xs t
  obtain ⟨he, _, _, _, _, rfl⟩ := of_init_ok h
  have hw : 0 < bucketWidth e := bucketWidth_pos he
  refine ⟨⟨by simp [LossyCount.initState], by simpa [LossyCount.initState] using hw⟩, ?_, ?_⟩
  · obtain ⟨_, _, _, _, hcb, hbk, hlt⟩ := hInv
    obtain ⟨M, hM⟩ : ∃ M,
        (((LossyCount.initState e supp :
          LossyCount α).process_stream xs t).current_bucket - 1) *
          ((LossyCount.initState e supp :
            LossyCount α).process_stream xs t).bucket_width = M := ⟨_, rfl⟩
    have hsplit : ((LossyCount.initState e supp :
        LossyCount α).process_stream xs t).current_bucket *
        ((LossyCount.initState e supp :
          LossyCount α).process_stream xs t).bucket_width =
        M + ((LossyCount.initState e supp :
          LossyCount α).process_stream xs t).bucket_width := by
      rw [← hM]
      have h1 : ((LossyCount.initState e supp :
          LossyCount α).process_stream xs t).current_bucket =
          (((LossyCount.initState e supp :
            LossyCount α).process_stream xs t).current_bucket - 1) + 1 := by
        omega
      calc ((LossyCount.initState e supp :
            LossyCount α).process_stream xs t).current_bucket *
            ((LossyCount.initState e supp :
              LossyCount α).process_stream xs t).bucket_width
          = ((((LossyCount.initState e supp :
              LossyCount α).process_stream xs t).current_bucket - 1) + 1) *
            ((LossyCount.initState e supp :
              LossyCount α).process_stream xs t).bucket_width := by rw [← h1]
        _ = (((LossyCount.initState e supp :
              LossyCount α).process_stream xs t).current_bucket - 1) *
            ((LossyCount.initState e supp :
              LossyCount α).process_stream xs t).bucket_width +
            ((LossyCount.initState e supp :
              LossyCount α).process_stream xs t).bucket_width :=
          Nat.succ_mul _ _
    rw [hsplit] at hbk
    rw [hM]
    exact ⟨by omega, hlt⟩
  · obtain ⟨p1, p2, p3⟩ := foldl_params xs (LossyCount.initState e supp)
    have hwr : ((LossyCount.initState e supp :
        LossyCount α).process_stream xs t).reset.bucket_width =
        bucketWidth e := by
      show ((LossyCount.initState e supp :
        LossyCount α).process_stream xs t).bucket_width = bucketWidth e
      show (xs.foldl LossyCount.process_item
        (LossyCount.initState e supp)).bucket_width = bucketWidth e
      rw [p3]
      rfl
    constructor
    · show (0 : ℕ) =
        (1 - 1) * ((LossyCount.initState e supp :
          LossyCount α).process_stream xs t).reset.bucket_width + 0
      simp
    · show 0 < ((LossyCount.initState e supp :
        LossyCount α).process_stream xs t).reset.bucket_width
      rw [hwr]
      exact hw

/-- Witness for C10 on a concrete valid instance and stream. -/
theorem lossy_bookkeeping_witness :
    ((LossyCount.initState (1/2) (3/4) : LossyCount ℕ).process_stream
        [0, 0, 0] 0).total_items =
      (((LossyCount.initState (1/2) (3/4) : LossyCount ℕ).process_stream
          [0, 0, 0] 0).current_bucket - 1) *
        ((LossyCount.initState (1/2) (3/4) : LossyCount ℕ).process_stream
          [0, 0, 0] 0).bucket_width +
      ((LossyCount.initState (1/2) (3/4) : LossyCount ℕ).process_stream
        [0, 0, 0] 0).items_in_current_bucket :=
  ((lossy_bookkeeping ℕ (1/2) (3/4) (LossyCount.initState (1/2) (3/4))
    (by with_unfolding_all decide) [0, 0, 0] 0).2.1).1

/-- C6: over any processed stream, every tracked entry `(count, delta)`
brackets the item's true frequency: `count ≤ freq ≤ count + delta`, and
`delta ≤ current_bucket - 1` (stated as `delta + 1 ≤ current_bucket`)
holds at all times, in particular at the moment of insertion (second
conjunct: a key untracked before one more step that is tracked after it);
and `delta` never increases across a further processed item (third
conjunct). -/
theorem lossy_count_invariant (α : Type) [DecidableEq α] (e supp : ℚ)
    (s0 : LossyCount α) (h : LossyCount.init e supp = Except.ok s0)
    (xs : List α) (t : ℚ) :
    (∀ a c d, alookup a (s0.process_stream xs t).entries = some (c, d) →
      c ≤ true_frequency a xs ∧ true_frequency a xs ≤ c + d ∧
        d + 1 ≤ (s0.process_stream xs t).current_bucket)
    ∧ (∀ (y : α) (a : α) (c d : ℕ),
        alookup a (s0.process_stream xs t).entries = none →
        alookup a ((s0.process_stream xs t).process_item y).entries =
          some (c, d) →
        d + 1 ≤ ((s0.process_stream xs t).process_item y).current_bucket)
    ∧ (∀ (y : α) (a : α) (c d c2 d2 : ℕ),
        alookup a (s0.process_stream xs t).entries = some (c, d) →
        alookup a ((s0.process_stream xs t).process_item y).entries =
          some (c2, d2) →
        d2 ≤ d) := by
  obtain ⟨hnd, hmem, habs, htot, hcb, hbk, hlt⟩ := lossyInv_run h xs t
  refine ⟨?_, ?_, ?_⟩
  · intro a c d hl
    exact hmem a c d (alookup_mem hl)
  · intro y a c d _ h2
    obtain ⟨_, hmem2, _, _, _, _, _⟩ := lossyInv_step (lossyInv_run h xs t) y
    exact (hmem2 a c d (alookup_mem h2)).2.2
  · intro y a c d c2 d2 h1 h2
    have := delta_unchanged_step hnd h1 h2
    omega

/-- Witness for C6 on a concrete stream. -/
theorem lossy_count_invariant_witness :
    2 ≤ true_frequency 0 [0, 0] ∧ true_frequency (0 : ℕ) [0, 0] ≤ 2 + 0 ∧
      0 + 1 ≤ ((LossyCount.initState (1/4) (1/2) :
        LossyCount ℕ).process_stream [0, 0] 0).current_bucket :=
  (lossy_count_invariant ℕ (1/4) (1/2) (LossyCount.initState (1/4) (1/2))
    (by with_unfolding_all decide) [0, 0] 0).1 0 2 0
    (by with_unfolding_all decide)

/-- C8: reset returns each structure to its just-constructed state and
every subsequent query coincides with the same query on a fresh instance
with the same constructor parameters. For `CsurosCounter` this holds
from an arbitrary state (its mutable fields are unconditionally cleared
and `base` is kept); for `LossyCount` it holds for every state reachable
from a valid construction. -/
theorem reset_idempotence (α : Type) [DecidableEq α] :
    (∀ s : CsurosCounter α,
      s.reset = CsurosCounter.initState s.base
      ∧ (∀ a, s.reset.get_estimate a =
          (CsurosCounter.initState s.base : CsurosCounter α).get_estimate a)
      ∧ (∀ a, s.reset.get_raw_counter a =
          (CsurosCounter.initState s.base :
            CsurosCounter α).get_raw_counter a)
      ∧ (∀ n, s.reset.get_most_frequent n =
          (CsurosCounter.initState s.base :
            CsurosCounter α).get_most_frequent n)
      ∧ (∀ n, s.reset.get_least_frequent n =
          (CsurosCounter.initState s.base :
            CsurosCounter α).get_least_frequent n)
      ∧ s.reset.get_statistics =
          (CsurosCounter.initState s.base : CsurosCounter α).get_statistics)
    ∧ ∀ (e supp : ℚ) (s0 : LossyCount α),
        LossyCount.init e supp = Except.ok s0 → ∀ (xs : List α) (t : ℚ),
        (s0.process_stream xs t).reset = s0
        ∧ (∀ a, (s0.process_stream xs t).reset.get_count a = s0.get_count a)
        ∧ (∀ n, (s0.process_stream xs t).reset.get_top_n n = s0.get_top_n n)
        ∧ (∀ ms, (s0.process_stream xs t).reset.get_frequent_items ms =
            s0.get_frequent_items ms)
        ∧ (s0.process_stream xs t).reset.get_statistics =
            s0.get_statistics := by
  constructor
  · intro s
    exact ⟨rfl, fun a => rfl, fun a => rfl, fun n => rfl, fun n => rfl, rfl⟩
  · intro e supp s0 h xs t
    have hr := reset_run h xs t
    exact ⟨hr, fun a => by rw [hr], fun n => by rw [hr],
      fun ms => by rw [hr], by rw [hr]⟩

/-- Witness for C8's lossy half on a concrete run. -/
theorem reset_idempotence_witness :
    ((LossyCount.initState (1/4) (1/2) : LossyCount ℕ).process_stream
        [0, 1, 0] 5).reset = LossyCount.initState (1/4) (1/2) :=
  ((reset_idempotence ℕ).2 (1/4) (1/2) (LossyCount.initState (1/4) (1/2))
    (by with_unfolding_all decide) [0, 1, 0] 5).1

/-- C9: across any two successful stretches of increment calls from a
freshly constructed counter with base greater than 1, the raw counter
value of every item is non-decreasing (whatever the random draws were). -/
theorem raw_counter_monotone (α : Type) [DecidableEq α] (b : ℚ)
    (hb : 1 < b) (ops1 ops2 : List (α × ℚ)) (s1 s2 : CsurosCounter α)
    (h1 : (CsurosCounter.initState b :
      CsurosCounter α).run_increments ops1 = Except.ok s1)
    (h2 : s1.run_increments ops2 = Except.ok s2) (a : α) :
    (s1.get_raw_counter a).1 ≤ (s2.get_raw_counter a).1 := by
  have hbase1 : s1.base = b :=
    (run_increments_sound ops1 (CsurosCounter.initState b) s1 hb h1).1
  exact (run_increments_sound ops2 s1 s2 (by rw [hbase1]; exact hb) h2).2 a

/-- Witness for C9 on a concrete two-step run. -/
theorem raw_counter_monotone_witness :
    (({ base := 2, counters := [((0 : ℕ), (1 : ℚ))], total_items := 1,
          processing_time := 0 } : CsurosCounter ℕ).get_raw_counter 0).1 ≤
      (({ base := 2, counters := [((0 : ℕ), (2 : ℚ))], total_items := 2,
            processing_time := 0 } : CsurosCounter ℕ).get_raw_counter 0).1 :=
  raw_counter_monotone ℕ 2 (by norm_num) [(0, 0)] [(0, 0)]
    { base := 2, counters := [((0 : ℕ), (1 : ℚ))], total_items := 1,
      processing_time := 0 }
    { base := 2, counters := [((0 : ℕ), (2 : ℚ))], total_items := 2,
      processing_time := 0 }
    (by with_unfolding_all decide) (by with_unfolding_all decide) 0

/-- C7: every item whose true frequency exceeds `support * N` is tracked
with `count ≥ (support - epsilon) * N` and therefore appears in
`get_frequent_items` called with the default support. -/
theorem lossy_no_false_negatives (α : Type) [DecidableEq α] (e supp : ℚ)
    (s0 : LossyCount α) (h : LossyCount.init e supp = Except.ok s0)
    (xs : List α) (t : ℚ) (x : α)
    (hf : supp * (xs.length : ℚ) < (true_frequency x xs : ℚ)) :
    ∃ c d, alookup x (s0.process_stream xs t).entries = some (c, d) ∧
      (supp - e) * (xs.length : ℚ) ≤ (c : ℚ) ∧
      ∃ fr, (x, c, fr) ∈ (s0.process_stream xs t).get_frequent_items none := by
  obtain ⟨hnd, hmem, habs, htot, hcb, hbk, hlt⟩ := lossyInv_run h xs t
  obtain ⟨he, he1, hsp0, hsp1, hes, rfl⟩ := of_init_ok h
  obtain ⟨p1, p2, p3⟩ := foldl_params xs (LossyCount.initState e supp)
  set S := (LossyCount.initState e supp : LossyCount α).process_stream xs t
    with hS
  have hSe : S.epsilon = e := by
    rw [hS]
    show (xs.foldl LossyCount.process_item
      (LossyCount.initState e supp)).epsilon = e
    rw [p1]
    rfl
  have hSsupp : S.support = supp := by
    rw [hS]
    show (xs.foldl LossyCount.process_item
      (LossyCount.initState e supp)).support = supp
    rw [p2]
    rfl
  have hSw : S.bucket_width = bucketWidth e := by
    rw [hS]
    show (xs.foldl LossyCount.process_item
      (LossyCount.initState e supp)).bucket_width = bucketWidth e
    rw [p3]
    rfl
  obtain ⟨k, hk1⟩ : ∃ k, S.current_bucket - 1 = k := ⟨_, rfl⟩
  have hk : k * S.bucket_width ≤ xs.length := by
    obtain ⟨M, hM⟩ : ∃ M, k * S.bucket_width = M := ⟨_, rfl⟩
    have hsplit : S.current_bucket * S.bucket_width =
        M + S.bucket_width := by
      rw [← hM, ← hk1]
      have h1 : S.current_bucket = (S.current_bucket - 1) + 1 := by omega
      calc S.current_bucket * S.bucket_width
          = ((S.current_bucket - 1) + 1) * S.bucket_width := by rw [← h1]
        _ = (S.current_bucket - 1) * S.bucket_width + S.bucket_width :=
          Nat.succ_mul _ _
    rw [hsplit] at hbk
    rw [hM]
    omega
  have hwq : 1 / e ≤ (S.bucket_width : ℚ) := by
    rw [hSw]
    exact bucketWidth_ge he
  have hew : 1 ≤ e * (S.bucket_width : ℚ) := by
    have h2 := mul_le_mul_of_nonneg_left hwq (le_of_lt he)
    rwa [mul_one_div, div_self (ne_of_gt he)] at h2
  have hkq : (k : ℚ) ≤ e * (xs.length : ℚ) := by
    have hA : ((k * S.bucket_width : ℕ) : ℚ) ≤ ((xs.length : ℕ) : ℚ) := by
      exact_mod_cast hk
    push_cast at hA
    calc (k : ℚ) = (k : ℚ) * 1 := by ring
      _ ≤ (k : ℚ) * (e * (S.bucket_width : ℚ)) :=
        mul_le_mul_of_nonneg_left hew (by positivity)
      _ = e * ((k : ℚ) * (S.bucket_width : ℚ)) := by ring
      _ ≤ e * (xs.length : ℚ) := mul_le_mul_of_nonneg_left hA (le_of_lt he)
  by_cases hxk : x ∈ S.entries.map (fun e2 => e2.1)
  · obtain ⟨⟨c, d⟩, hm⟩ := exists_of_mem_keys hxk
    have hlk : alookup x S.entries = some (c, d) := alookup_of_mem_nodup hnd hm
    obtain ⟨g1, g2, g3⟩ := hmem x c d hm
    have hdk : d ≤ k := by omega
    have hdq : (d : ℚ) ≤ e * (xs.length : ℚ) :=
      le_trans (by exact_mod_cast hdk) hkq
    have hcnt : (true_frequency x xs : ℚ) ≤ (c : ℚ) + (d : ℚ) := by
      exact_mod_cast g2
    have hcq : (supp - e) * (xs.length : ℚ) < (c : ℚ) := by
      have hexp : (supp - e) * (xs.length : ℚ) =
          supp * (xs.length : ℚ) - e * (xs.length : ℚ) := by ring
      rw [hexp]
      linarith
    refine ⟨c, d, hlk, le_of_lt hcq,
      (if 0 < S.total_items then (c : ℚ) / (S.total_items : ℚ) else 0), ?_⟩
    rw [LossyCount.get_frequent_items]
    dsimp only [Option.getD]
    rw [mem_sortDescQ]
    apply List.mem_filterMap.mpr
    refine ⟨(x, c, d), hm, ?_⟩
    have hcond : (S.support - S.epsilon) * (S.total_items : ℚ) ≤
        ((c : ℕ) : ℚ) := by
      rw [hSsupp, hSe, htot]
      exact le_of_lt hcq
    rw [if_pos hcond]
  · exfalso
    have hfx := habs x hxk
    have hfk : true_frequency x xs ≤ k := by omega
    have hfq : (true_frequency x xs : ℚ) ≤ e * (xs.length : ℚ) :=
      le_trans (by exact_mod_cast hfk) hkq
    have hesN : e * (xs.length : ℚ) ≤ supp * (xs.length : ℚ) :=
      mul_le_mul_of_nonneg_right (le_of_lt hes) (by positivity)
    linarith

/-- Witness for C7: in the stream `[0, 0, 0]` with epsilon 1/4 and
support 1/2, the item 0 is frequent and is reported. -/
theorem lossy_no_false_negatives_witness :
    ∃ c d, alookup 0 ((LossyCount.initState (1/4) (1/2) :
        LossyCount ℕ).process_stream [0, 0, 0] 0).entries = some (c, d) ∧
      ((1 : ℚ)/2 - 1/4) * (([0, 0, 0] : List ℕ).length : ℚ) ≤ (c : ℚ) ∧
      ∃ fr, ((0 : ℕ), c, fr) ∈ ((LossyCount.initState (1/4) (1/2) :
        LossyCount ℕ).process_stream [0, 0, 0] 0).get_frequent_items none :=
  lossy_no_false_negatives ℕ (1/4) (1/2)
    (LossyCount.initState (1/4) (1/2)) (by with_unfolding_all decide)
    [0, 0, 0] 0 0 (by with_unfolding_all decide)
